import Mathlib

/-!
Verification of the memory chatbot core: the debounced memory-extraction
scheduler contract and the turn state machine wired in
src/src/chatbot/graph.py.  The scheduler itself runs inside the external
langgraph run service invoked through get_client().runs.create, so its
transition system is modelled from the spec (section 4.2); the turn graph,
its nodes and the routing function are embedded from the source.
-/

/-- Extraction parameters carried by a memory-extraction job:
the user id and the memory-type set (spec section 3, MemoryExtractionJob). -/
structure Params where
  user_id : String
  memory_types : List String
deriving DecidableEq, Repr

/-- Conversation identity. -/
abbrev Cid := Nat

/-- Modelled from the spec: a MemoryExtractionJob of the DebouncedJobScheduler
(spec section 3); the scheduler code itself lives in the external langgraph
run service, not under src/.  A job carries its conversation id, the
scheduler-assigned sequence number, the scheduled fire time and the
extraction parameters. -/
structure Job where
  cid : Cid
  seq : Nat
  fireTime : Nat
  params : Params
deriving DecidableEq, Repr

/-- Modelled from the spec: the DebouncedJobScheduler state (spec sections
4.2 and 5) — the live-job set, plus the cancelled and completed jobs, the
monotone sequence counter and the current time.  The concrete scheduler is
the langgraph run queue, which is not under src/. -/
structure SchedState where
  nextSeq : Nat
  now : Nat
  live : List Job
  cancelled : List Job
  fired : List Job
deriving DecidableEq, Repr

/-- The scheduler's initial state: no jobs, sequence counter at zero. -/
def initSched : SchedState := ⟨0, 0, [], [], []⟩

/-- The job a schedule call creates: fresh sequence number,
fire time = now + delay, the caller's params (spec section 4.2). -/
def newJob (s : SchedState) (cid : Cid) (delay : Nat) (p : Params) : Job :=
  ⟨cid, s.nextSeq, s.now + delay, p⟩

/-- Modelled from the spec: DebouncedJobScheduler.schedule (spec section
4.2) — cancel any live job for the conversation id, then install a fresh
job with fire time now + delay as the live job for that conversation. -/
def SchedState.schedule (s : SchedState) (cid : Cid) (delay : Nat) (p : Params) : SchedState :=
  { nextSeq := s.nextSeq + 1
    now := s.now
    live := newJob s cid delay p :: s.live.filter (fun j => ! (j.cid == cid))
    cancelled := s.live.filter (fun j => j.cid == cid) ++ s.cancelled
    fired := s.fired }

/-- Modelled from the spec: DebouncedJobScheduler.cancel (spec section 4.2)
— cancel the live job for the conversation id if any, reporting whether a
job was actually cancelled. -/
def SchedState.cancel (s : SchedState) (cid : Cid) : Bool × SchedState :=
  if (s.live.filter (fun j => j.cid == cid)).isEmpty then (false, s)
  else (true,
    { s with
      live := s.live.filter (fun j => ! (j.cid == cid))
      cancelled := s.live.filter (fun j => j.cid == cid) ++ s.cancelled })

/-- Whether a job is due at time t. -/
def dueB (t : Nat) (j : Job) : Bool := decide (j.fireTime ≤ t)

/-- Modelled from the spec: the passage of time (spec section 4.2, "on
fire") — advancing the clock fires every live job whose fire time has been
reached: the job leaves the live set and its extraction trigger is invoked,
recorded by appending the job to the fired list. -/
def SchedState.advance (s : SchedState) (dt : Nat) : SchedState :=
  { s with
    now := s.now + dt
    live := s.live.filter (fun j => ! dueB (s.now + dt) j)
    fired := s.fired ++ s.live.filter (dueB (s.now + dt)) }

/-- Modelled from the spec: the requests the scheduler serves — schedule,
cancel, and the passage of time. -/
inductive Event where
  | schedule (cid : Cid) (delay : Nat) (p : Params)
  | cancel (cid : Cid)
  | advance (dt : Nat)
deriving DecidableEq, Repr

/-- One scheduler transition. -/
def schedStep (s : SchedState) : Event → SchedState
  | .schedule cid d p => s.schedule cid d p
  | .cancel cid => (s.cancel cid).2
  | .advance dt => s.advance dt

/-- Run a sequence of scheduler events from a state. -/
def runFrom (s : SchedState) : List Event → SchedState
  | [] => s
  | e :: es => runFrom (schedStep s e) es

/-- Run a sequence of scheduler events from the initial state. -/
def runSched (es : List Event) : SchedState := runFrom initSched es

/-- The live jobs for one conversation id. -/
def liveFor (s : SchedState) (cid : Cid) : List Job :=
  s.live.filter (fun j => j.cid == cid)

/-- The fired (completed) jobs for one conversation id. -/
def firedFor (s : SchedState) (cid : Cid) : List Job :=
  s.fired.filter (fun j => j.cid == cid)

theorem runFrom_append (s : SchedState) (es es2 : List Event) :
    runFrom s (es ++ es2) = runFrom (runFrom s es) es2 := by
  induction es generalizing s with
  | nil => rfl
  | cons e es ih => simp [runFrom, ih]

theorem liveFor_schedule_self (s : SchedState) (cid : Cid) (d : Nat) (p : Params) :
    liveFor (s.schedule cid d p) cid = [newJob s cid d p] := by
  simp [liveFor, SchedState.schedule, List.filter_filter, newJob]

/-- The scheduler invariant (spec sections 4.2 and 5): sequence numbers of
recorded jobs are below the counter, the live and fired lists carry no
duplicate job, the three job lists are pairwise disjoint, and each
conversation id has at most one live job. -/
structure SchedInv (s : SchedState) : Prop where
  seq_bound : ∀ j : Job, j ∈ s.live ∨ j ∈ s.cancelled ∨ j ∈ s.fired → j.seq < s.nextSeq
  live_nodup : s.live.Nodup
  fired_nodup : s.fired.Nodup
  live_cancelled : ∀ j : Job, j ∈ s.live → j ∉ s.cancelled
  live_fired : ∀ j : Job, j ∈ s.live → j ∉ s.fired
  cancelled_fired : ∀ j : Job, j ∈ s.cancelled → j ∉ s.fired
  live_once : ∀ c : Cid, (liveFor s c).length ≤ 1

theorem SchedInv_initSched : SchedInv initSched := by
  constructor <;> simp [initSched, liveFor]

theorem liveFor_length_le (s : SchedState) (c cid : Cid) :
    ((s.live.filter (fun j => ! (j.cid == cid))).filter (fun j => j.cid == c)).length
      ≤ (liveFor s c).length := by
  have hsub : List.Sublist
      ((s.live.filter (fun j => ! (j.cid == cid))).filter (fun j => j.cid == c))
      (s.live.filter (fun j => j.cid == c)) :=
    List.Sublist.filter _ (List.filter_sublist s.live)
  exact hsub.length_le

theorem SchedInv_schedule (s : SchedState) (cid : Cid) (d : Nat) (p : Params)
    (h : SchedInv s) : SchedInv (s.schedule cid d p) := by
  have hfresh : ∀ j : Job, j ∈ s.live ∨ j ∈ s.cancelled ∨ j ∈ s.fired →
      j ≠ newJob s cid d p := by
    intro j hj heq
    have := h.seq_bound j hj
    rw [heq] at this
    simp [newJob] at this
  constructor
  · intro j hj
    simp only [SchedState.schedule, List.mem_cons, List.mem_append, List.mem_filter] at hj
    rcases hj with (h1 | h1) | (h1 | h1) | h1
    · simp [h1, newJob, SchedState.schedule]
    · exact Nat.lt_succ_of_lt (h.seq_bound j (Or.inl h1.1))
    · exact Nat.lt_succ_of_lt (h.seq_bound j (Or.inl h1.1))
    · exact Nat.lt_succ_of_lt (h.seq_bound j (Or.inr (Or.inl h1)))
    · exact Nat.lt_succ_of_lt (h.seq_bound j (Or.inr (Or.inr h1)))
  · simp only [SchedState.schedule, List.nodup_cons]
    refine ⟨fun hmem => ?_, h.live_nodup.filter _⟩
    have := (List.mem_filter.mp hmem).1
    exact hfresh _ (Or.inl this) rfl
  · exact h.fired_nodup
  · intro j hj hC
    simp only [SchedState.schedule, List.mem_cons, List.mem_filter] at hj
    simp only [SchedState.schedule, List.mem_append, List.mem_filter] at hC
    rcases hj with rfl | hj
    · rcases hC with hC | hC
      · exact hfresh _ (Or.inl hC.1) rfl
      · exact hfresh _ (Or.inr (Or.inl hC)) rfl
    · rcases hC with hC | hC
      · have hb := hj.2
        rw [hC.2] at hb
        simp at hb
      · exact h.live_cancelled j hj.1 hC
  · intro j hj hF
    simp only [SchedState.schedule, List.mem_cons, List.mem_filter] at hj
    simp only [SchedState.schedule] at hF
    rcases hj with rfl | hj
    · exact hfresh _ (Or.inr (Or.inr hF)) rfl
    · exact h.live_fired j hj.1 hF
  · intro j hj hF
    simp only [SchedState.schedule, List.mem_append, List.mem_filter] at hj
    simp only [SchedState.schedule] at hF
    rcases hj with hj | hj
    · exact h.live_fired j hj.1 hF
    · exact h.cancelled_fired j hj hF
  · intro c
    by_cases hc : c = cid
    · subst hc
      have := liveFor_schedule_self s c d p
      rw [this]
      simp
    · have : liveFor (s.schedule cid d p) c
          = (s.live.filter (fun j => ! (j.cid == cid))).filter (fun j => j.cid == c) := by
        simp only [liveFor, SchedState.schedule, List.filter_cons]
        have : ((newJob s cid d p).cid == c) = false := by
          simp [newJob]
          exact fun hq => hc hq.symm
        simp [this]
      rw [this]
      exact le_trans (liveFor_length_le s c cid) (h.live_once c)

theorem SchedInv_cancel (s : SchedState) (cid : Cid) (h : SchedInv s) :
    SchedInv (s.cancel cid).2 := by
  cases hE : (s.live.filter (fun j => j.cid == cid)).isEmpty with
  | true => simpa [SchedState.cancel, hE] using h
  | false =>
    have hred : (s.cancel cid).2 =
        { s with
          live := s.live.filter (fun j => ! (j.cid == cid))
          cancelled := s.live.filter (fun j => j.cid == cid) ++ s.cancelled } := by
      simp [SchedState.cancel, hE]
    rw [hred]
    constructor
    · intro j hj
      simp only [List.mem_append, List.mem_filter] at hj
      rcases hj with h1 | (h1 | h1) | h1
      · exact h.seq_bound j (Or.inl h1.1)
      · exact h.seq_bound j (Or.inl h1.1)
      · exact h.seq_bound j (Or.inr (Or.inl h1))
      · exact h.seq_bound j (Or.inr (Or.inr h1))
    · exact h.live_nodup.filter _
    · exact h.fired_nodup
    · intro j hj hC
      simp only [List.mem_filter] at hj
      simp only [List.mem_append, List.mem_filter] at hC
      rcases hC with hC | hC
      · have hb := hj.2
        rw [hC.2] at hb
        simp at hb
      · exact h.live_cancelled j hj.1 hC
    · intro j hj hF
      simp only [List.mem_filter] at hj
      exact h.live_fired j hj.1 hF
    · intro j hj hF
      simp only [List.mem_append, List.mem_filter] at hj
      rcases hj with hj | hj
      · exact h.live_fired j hj.1 hF
      · exact h.cancelled_fired j hj hF
    · intro c
      have hsub : List.Sublist
          ((s.live.filter (fun j => ! (j.cid == cid))).filter (fun j => j.cid == c))
          (s.live.filter (fun j => j.cid == c)) :=
        List.Sublist.filter _ (List.filter_sublist s.live)
      calc ((s.live.filter (fun j => ! (j.cid == cid))).filter (fun j => j.cid == c)).length
          ≤ (liveFor s c).length := hsub.length_le
        _ ≤ 1 := h.live_once c

theorem SchedInv_advance (s : SchedState) (dt : Nat) (h : SchedInv s) :
    SchedInv (s.advance dt) := by
  constructor
  · intro j hj
    simp only [SchedState.advance, List.mem_append, List.mem_filter] at hj
    rcases hj with h1 | h1 | h1 | h1
    · exact h.seq_bound j (Or.inl h1.1)
    · exact h.seq_bound j (Or.inr (Or.inl h1))
    · exact h.seq_bound j (Or.inr (Or.inr h1))
    · exact h.seq_bound j (Or.inl h1.1)
  · exact h.live_nodup.filter _
  · simp only [SchedState.advance]
    rw [List.nodup_append]
    refine ⟨h.fired_nodup, h.live_nodup.filter _, ?_⟩
    intro j hjF hjL
    have := (List.mem_filter.mp hjL).1
    exact h.live_fired j this hjF
  · intro j hj hC
    simp only [SchedState.advance, List.mem_filter] at hj
    exact h.live_cancelled j hj.1 hC
  · intro j hj hF
    simp only [SchedState.advance, List.mem_filter] at hj
    simp only [SchedState.advance, List.mem_append, List.mem_filter] at hF
    rcases hF with hF | hF
    · exact h.live_fired j hj.1 hF
    · have hb := hj.2
      rw [hF.2] at hb
      simp at hb
  · intro j hj hF
    simp only [SchedState.advance, List.mem_append, List.mem_filter] at hF
    rcases hF with hF | hF
    · exact h.cancelled_fired j hj hF
    · exact h.live_cancelled j hF.1 hj
  · intro c
    have hsub : List.Sublist
        ((s.live.filter (fun j => ! dueB (s.now + dt) j)).filter (fun j => j.cid == c))
        (s.live.filter (fun j => j.cid == c)) :=
      List.Sublist.filter _ (List.filter_sublist s.live)
    calc ((s.live.filter (fun j => ! dueB (s.now + dt) j)).filter (fun j => j.cid == c)).length
        ≤ (liveFor s c).length := hsub.length_le
      _ ≤ 1 := h.live_once c

theorem SchedInv_step (s : SchedState) (e : Event) (h : SchedInv s) :
    SchedInv (schedStep s e) := by
  cases e with
  | schedule cid d p => exact SchedInv_schedule s cid d p h
  | cancel cid => exact SchedInv_cancel s cid h
  | advance dt => exact SchedInv_advance s dt h

theorem SchedInv_runFrom (s : SchedState) (es : List Event) (h : SchedInv s) :
    SchedInv (runFrom s es) := by
  induction es generalizing s with
  | nil => exact h
  | cons e es ih => exact ih (schedStep s e) (SchedInv_step s e h)

theorem SchedInv_runSched (es : List Event) : SchedInv (runSched es) :=
  SchedInv_runFrom initSched es SchedInv_initSched

theorem cancelled_mono_step (s : SchedState) (e : Event) (j : Job)
    (h : j ∈ s.cancelled) : j ∈ (schedStep s e).cancelled := by
  cases e with
  | schedule cid d p => simp [schedStep, SchedState.schedule, h]
  | cancel cid =>
      by_cases hE : (s.live.filter (fun x => x.cid == cid)).isEmpty
      · simpa [schedStep, SchedState.cancel, hE] using h
      · simp [schedStep, SchedState.cancel, hE, h]
  | advance dt => simpa [schedStep, SchedState.advance] using h

theorem cancelled_mono_runFrom (s : SchedState) (es : List Event) (j : Job)
    (h : j ∈ s.cancelled) : j ∈ (runFrom s es).cancelled := by
  induction es generalizing s with
  | nil => exact h
  | cons e es ih => exact ih (schedStep s e) (cancelled_mono_step s e j h)

/-- A job recorded as cancelled is never subsequently delivered to the
extraction trigger, whatever the scheduler goes on to do. -/
theorem cancelled_never_fires (s : SchedState) (es : List Event) (j : Job)
    (hInv : SchedInv s) (h : j ∈ s.cancelled) : j ∉ (runFrom s es).fired :=
  (SchedInv_runFrom s es hInv).cancelled_fired j (cancelled_mono_runFrom s es j h)

theorem fired_src_runFrom (s : SchedState) (es : List Event) (j : Job) :
    j ∈ (runFrom s es).fired → j ∈ s.fired ∨ j ∈ s.live ∨ s.nextSeq ≤ j.seq := by
  induction es generalizing s with
  | nil => exact fun h => Or.inl h
  | cons e es ih =>
    intro h
    have h2 := ih (schedStep s e) h
    cases e with
    | schedule cid d p =>
      simp only [schedStep, SchedState.schedule, List.mem_cons, List.mem_filter] at h2
      rcases h2 with h2 | (h2 | h2) | h2
      · exact Or.inl h2
      · right
        right
        rw [h2]
        simp [newJob]
      · exact Or.inr (Or.inl h2.1)
      · right
        right
        exact le_trans (Nat.le_succ _) h2
    | cancel cid =>
      cases hE : (s.live.filter (fun x => x.cid == cid)).isEmpty with
      | true =>
        simp only [schedStep, SchedState.cancel, hE, if_true, Bool.true_eq_false] at h2
        simpa using h2
      | false =>
        have hred : ((s.cancel cid).2).fired = s.fired := by
          simp [SchedState.cancel, hE]
        have hlive : ((s.cancel cid).2).live = s.live.filter (fun x => ! (x.cid == cid)) := by
          simp [SchedState.cancel, hE]
        have hseq : ((s.cancel cid).2).nextSeq = s.nextSeq := by
          simp [SchedState.cancel, hE]
        simp only [schedStep, hred, hlive, hseq, List.mem_filter] at h2
        rcases h2 with h2 | h2 | h2
        · exact Or.inl h2
        · exact Or.inr (Or.inl h2.1)
        · exact Or.inr (Or.inr h2)
    | advance dt =>
      simp only [schedStep, SchedState.advance, List.mem_append, List.mem_filter] at h2
      rcases h2 with (h2 | h2) | h2 | h2
      · exact Or.inl h2
      · exact Or.inr (Or.inl h2.1)
      · exact Or.inr (Or.inl h2.1)
      · exact Or.inr (Or.inr h2)

theorem fired_cid_src (s : SchedState) (es : List Event) (cid : Cid)
    (hN : ∀ d p, Event.schedule cid d p ∉ es) (j : Job) :
    j ∈ (runFrom s es).fired → j.cid = cid → j ∈ s.fired ∨ j ∈ s.live := by
  induction es generalizing s with
  | nil => exact fun h _ => Or.inl h
  | cons e es ih =>
    intro h hcid
    have hN2 : ∀ d p, Event.schedule cid d p ∉ es := by
      intro d p hmem
      exact hN d p (List.mem_cons_of_mem e hmem)
    have h2 := ih (schedStep s e) hN2 h hcid
    cases e with
    | schedule c d p =>
      have hc : c ≠ cid := by
        intro hc
        subst hc
        exact hN d p (List.mem_cons_self _ _)
      simp only [schedStep, SchedState.schedule, List.mem_cons, List.mem_filter] at h2
      rcases h2 with h2 | h2 | h2
      · exact Or.inl h2
      · exfalso
        rw [h2] at hcid
        simp [newJob] at hcid
        exact hc hcid
      · exact Or.inr h2.1
    | cancel c =>
      cases hE : (s.live.filter (fun x => x.cid == c)).isEmpty with
      | true =>
        simp only [schedStep, SchedState.cancel, hE, if_true] at h2
        simpa using h2
      | false =>
        have hred : ((s.cancel c).2).fired = s.fired := by
          simp [SchedState.cancel, hE]
        have hlive : ((s.cancel c).2).live = s.live.filter (fun x => ! (x.cid == c)) := by
          simp [SchedState.cancel, hE]
        simp only [schedStep, hred, hlive, List.mem_filter] at h2
        rcases h2 with h2 | h2
        · exact Or.inl h2
        · exact Or.inr h2.1
    | advance dt =>
      simp only [schedStep, SchedState.advance, List.mem_append, List.mem_filter] at h2
      rcases h2 with (h2 | h2) | h2
      · exact Or.inl h2
      · exact Or.inr h2.1
      · exact Or.inr h2.1

theorem nodup_all_eq_length_le (l : List Job) (a : Job)
    (hnd : l.Nodup) (hall : ∀ x ∈ l, x = a) : l.length ≤ 1 := by
  cases l with
  | nil => simp
  | cons x xs =>
    cases xs with
    | nil => simp
    | cons y ys =>
      exfalso
      have hx : x = a := hall x (by simp)
      have hy : y = a := hall y (by simp)
      rw [List.nodup_cons] at hnd
      exact hnd.1 (by simp [hx, hy])

/-- A tool-call request carried by an assistant message
(call id, tool name, keyword arguments). -/
structure ToolCall where
  id : String
  name : String
  args : List (String × String)
deriving DecidableEq, Repr

/-- A chat message: user, assistant (content plus tool-call requests),
tool result (content plus the id of the call it answers), or system. -/
inductive Message where
  | user (content : String)
  | assistant (content : String) (tcs : List ToolCall)
  | tool (content : String) (tool_call_id : String)
  | system (content : String)
deriving DecidableEq, Repr

/-- The tool_calls attribute of a message; empty where absent. -/
def Message.tool_calls : Message → List ToolCall
  | .assistant _ tcs => tcs
  | _ => []

/-- Whether the message type carries a tool_calls attribute at all
(only assistant messages do), mirroring hasattr in should_continue. -/
def Message.hasToolCallsAttr : Message → Bool
  | .assistant _ _ => true
  | _ => false

/-- The example_tool body from graph.py lines 25-29. -/
def example_tool (query : String) : String := "You asked: " ++ query

/-- The registered tool table (graph.py line 32: tools = [example_tool])
applied to one call: none for an unknown tool name or missing argument. -/
def runTool (name : String) (args : List (String × String)) : Option String :=
  if name = "example_tool" then
    match args.lookup "query" with
    | some q => some (example_tool q)
    | none => none
  else none

/-- ToolNode (graph.py line 100): execute each requested call and collect
one tool-result message per request, in request order, each tagged with its
call id; fails if any call fails. -/
def toolNode : List ToolCall → Option (List Message)
  | [] => some []
  | tc :: rest =>
    match runTool tc.name tc.args, toolNode rest with
    | some r, some ms => some (Message.tool r tc.id :: ms)
    | _, _ => none

/-- Modelled from the spec: chatbot/configuration.py is not under src/;
the ChatConfigurable fields are those the spec lists for ChatConfiguration
(section 3) and that graph.py reads: user_id, memory-service target,
debounce delay, memory-type set, system prompt template. -/
structure ChatConfigurable where
  user_id : String
  mem_assistant_id : String
  delay_seconds : Nat
  memory_types : List String
  system_prompt : String
deriving DecidableEq, Repr

/-- Modelled from the spec: format_memories from chatbot/utils.py is not
under src/; the spec renders recalled memories as a flat textual list and
"no memories yet" when the store returns nothing (section 4.1). -/
def format_memories (items : List String) : String :=
  if items.isEmpty then "no memories yet"
  else String.intercalate "\n" items

/-- Python str.format on the configured template (graph.py line 46),
substituting the user_info and time placeholders. -/
def formatPrompt (template user_info time : String) : String :=
  (template.replace "\x7buser_info\x7d" user_info).replace "\x7btime\x7d" time

/-- The run-creation request schedule_memories sends to the scheduler
(graph.py lines 61-89): same thread id, enqueue strategy, fire delay from
the configuration, the memory assistant, empty input, and the extraction
parameters user_id and memory_types. -/
structure RunRequest where
  thread_id : String
  multitask_strategy : String
  after_seconds : Nat
  assistant_id : String
  input_messages : List Message
  user_id : String
  memory_types : List String
deriving DecidableEq, Repr

/-- The request built by schedule_memories from the configuration
(graph.py lines 61-89). -/
def mkRunRequest (cfg : ChatConfigurable) (thread_id : String) : RunRequest :=
  { thread_id := thread_id
    multitask_strategy := "enqueue"
    after_seconds := cfg.delay_seconds
    assistant_id := cfg.mem_assistant_id
    input_messages := []
    user_id := cfg.user_id
    memory_types := cfg.memory_types }

/-- The schedule_memories node (graph.py lines 57-89): it issues one run
request and appends no messages (the Python function returns None). -/
def schedule_memories (cfg : ChatConfigurable) (thread_id : String) :
    RunRequest × List Message :=
  (mkRunRequest cfg thread_id, [])

/-- The system prompt the bot node builds (graph.py lines 40-49): the
configured template formatted with the memories recalled from the store
under the namespace (user_id,) and the current UTC timestamp. -/
def systemPromptFor (cfg : ChatConfigurable) (search : List String → List String)
    (now : String) : String :=
  formatPrompt cfg.system_prompt (format_memories (search [cfg.user_id])) now

/-- The bot node (graph.py lines 36-54): invoke the reply generator on the
system prompt followed by the whole message history, and return the single
reply message to append. -/
def bot (messages : List Message) (cfg : ChatConfigurable)
    (search : List String → List String) (now : String)
    (gen : List Message → Message) : List Message :=
  [gen (Message.system (systemPromptFor cfg search now) :: messages)]

/-- The routing function should_continue (graph.py lines 91-95): none on an
empty message list (indexing [-1] raises); otherwise route on whether the
last message carries tool calls. -/
def should_continue (messages : List Message) : Option String :=
  match messages.getLast? with
  | none => none
  | some last =>
    if ! last.hasToolCallsAttr || last.tool_calls.isEmpty then
      some ("schedule_memories")
    else
      some ("continue")

/-- The nodes of the compiled state graph (graph.py lines 97-108). -/
inductive Node where
  | start
  | bot
  | tools
  | schedule_memories
  | stop
deriving DecidableEq, Repr

/-- Graph state threaded through a turn: the conversation messages plus
the run requests issued to the scheduler. -/
structure GraphState where
  messages : List Message
  scheduled : List RunRequest
deriving DecidableEq, Repr

/-- The per-turn environment: the chat configuration, the thread id, the
memory store search capability, the clock, and the reply generator. -/
structure Env where
  cfg : ChatConfigurable
  thread_id : String
  search : List String → List String
  now : String
  gen : List Message → Message

/-- One transition of the compiled graph, following the edges added in
graph.py lines 102-106: start to bot; bot routed by should_continue to
tools or schedule_memories; tools back to bot; schedule_memories to the
end. -/
def stepNode (env : Env) : Node → GraphState → Option (Node × GraphState)
  | .start, s => some (.bot, s)
  | .bot, s =>
    let appended := bot s.messages env.cfg env.search env.now env.gen
    let s2 : GraphState := ⟨s.messages ++ appended, s.scheduled⟩
    match should_continue s2.messages with
    | some r => if r = "continue" then some (.tools, s2) else some (.schedule_memories, s2)
    | none => none
  | .tools, s =>
    match s.messages.getLast? with
    | some last =>
      match toolNode last.tool_calls with
      | some results => some (.bot, ⟨s.messages ++ results, s.scheduled⟩)
      | none => none
    | none => none
  | .schedule_memories, s =>
    some (.stop, ⟨s.messages ++ (schedule_memories env.cfg env.thread_id).2,
                  s.scheduled ++ [(schedule_memories env.cfg env.thread_id).1]⟩)
  | .stop, s => some (.stop, s)

/-- Run the graph for at most the given number of steps, stopping at the
end node; none when the step budget runs out or a node fails. -/
def runGraph (env : Env) : Nat → Node → GraphState → Option GraphState
  | _, .stop, s => some s
  | 0, _, _ => none
  | fuel + 1, n, s =>
    match stepNode env n s with
    | some (n2, s2) => runGraph env fuel n2 s2
    | none => none

/-- One whole turn: run the compiled graph from the start node on the
current messages, with no scheduling calls issued yet. -/
def runTurn (env : Env) (fuel : Nat) (messages : List Message) : Option GraphState :=
  runGraph env fuel .start ⟨messages, []⟩

/-- Sample extraction parameters used by concrete witness instantiations. -/
def pA : Params := ⟨"u", ["a"]⟩

/-- Second sample extraction parameters for witness instantiations. -/
def pB : Params := ⟨"u", ["b"]⟩

/-- C1: for every sequence of schedule calls for the same conversation id,
at most one live job exists for any conversation id at any instant;
immediately after a schedule call returns, exactly one live job exists for
that conversation id — the newly created one, whose parameters are the
call's and whose sequence number is strictly above every earlier job's —
and any job that call cancelled (the previously live jobs for that id)
never fires, whatever events follow. -/
theorem claim_C1 (es : List Event) (cid : Cid) (d : Nat) (p : Params) :
    (∀ pre : List Event, ∀ c : Cid, (liveFor (runSched pre) c).length ≤ 1) ∧
    liveFor (runSched (es ++ [Event.schedule cid d p])) cid
      = [newJob (runSched es) cid d p] ∧
    (newJob (runSched es) cid d p).params = p ∧
    (∀ j : Job,
      j ∈ (runSched es).live ∨ j ∈ (runSched es).cancelled ∨ j ∈ (runSched es).fired →
      j.seq < (newJob (runSched es) cid d p).seq) ∧
    (∀ j ∈ liveFor (runSched es) cid, ∀ es3 : List Event,
      j ∉ (runSched (es ++ Event.schedule cid d p :: es3)).fired) := by
  refine ⟨fun pre c => (SchedInv_runSched pre).live_once c, ?_, rfl, ?_, ?_⟩
  · rw [runSched, runFrom_append]
    exact liveFor_schedule_self (runSched es) cid d p
  · intro j hj
    exact (SchedInv_runSched es).seq_bound j hj
  · intro j hj es3
    have hstep : runSched (es ++ Event.schedule cid d p :: es3)
        = runFrom (schedStep (runSched es) (Event.schedule cid d p)) es3 := by
      rw [runSched, runFrom_append]
      rfl
    rw [hstep]
    have hC : j ∈ (schedStep (runSched es) (Event.schedule cid d p)).cancelled := by
      simp only [schedStep, SchedState.schedule, List.mem_append]
      exact Or.inl hj
    exact cancelled_never_fires _ es3 j
      (SchedInv_step (runSched es) _ (SchedInv_runSched es)) hC

theorem claim_C1_witness :
    liveFor (runSched ([Event.schedule 0 3 pA] ++ [Event.schedule 0 5 pB])) 0
      = [newJob (runSched [Event.schedule 0 3 pA]) 0 5 pB] ∧
    (⟨0, 0, 3, pA⟩ : Job)
      ∉ (runSched ([Event.schedule 0 3 pA] ++ Event.schedule 0 5 pB :: [Event.advance 10])).fired := by
  refine ⟨(claim_C1 [Event.schedule 0 3 pA] 0 5 pB).2.1, ?_⟩
  exact (claim_C1 [Event.schedule 0 3 pA] 0 5 pB).2.2.2.2 ⟨0, 0, 3, pA⟩ (by decide)
    [Event.advance 10]

/-- The state after two back-to-back schedule calls for the same
conversation id from the initial scheduler state. -/
def twoSched (cid : Cid) (d1 d2 : Nat) (p1 p2 : Params) : SchedState :=
  schedStep (schedStep initSched (Event.schedule cid d1 p1)) (Event.schedule cid d2 p2)

theorem twoSched_live (cid : Cid) (d1 d2 : Nat) (p1 p2 : Params) :
    (twoSched cid d1 d2 p1 p2).live = [⟨cid, 1, d2, p2⟩] := by
  simp [twoSched, schedStep, SchedState.schedule, newJob, initSched]

theorem twoSched_fired (cid : Cid) (d1 d2 : Nat) (p1 p2 : Params) :
    (twoSched cid d1 d2 p1 p2).fired = [] := rfl

theorem twoSched_nextSeq (cid : Cid) (d1 d2 : Nat) (p1 p2 : Params) :
    (twoSched cid d1 d2 p1 p2).nextSeq = 2 := rfl

theorem twoSched_now (cid : Cid) (d1 d2 : Nat) (p1 p2 : Params) :
    (twoSched cid d1 d2 p1 p2).now = 0 := rfl

theorem twoSched_inv (cid : Cid) (d1 d2 : Nat) (p1 p2 : Params) :
    SchedInv (twoSched cid d1 d2 p1 p2) :=
  SchedInv_step _ _ (SchedInv_step _ _ SchedInv_initSched)

/-- C2: if schedule is called twice in a row for the same conversation id
before the first job fires, then whatever later events occur — as long as
they contain no further schedule call for that id — the first call's job
(sequence number 0) never reaches the extraction trigger, every fired job
for that id carries the second call's parameters, and at most one such job
ever fires. -/
theorem claim_C2 (cid : Cid) (d1 d2 : Nat) (p1 p2 : Params) (es : List Event)
    (h : ∀ d : Nat, ∀ p : Params, Event.schedule cid d p ∉ es) :
    (∀ j ∈ (runFrom (twoSched cid d1 d2 p1 p2) es).fired, j.seq ≠ 0) ∧
    (∀ j ∈ (runFrom (twoSched cid d1 d2 p1 p2) es).fired, j.cid = cid → j.params = p2) ∧
    (firedFor (runFrom (twoSched cid d1 d2 p1 p2) es) cid).length ≤ 1 ∧
    (∀ T : Nat, d2 ≤ T →
      (runFrom (twoSched cid d1 d2 p1 p2) [Event.advance T]).fired
        = [⟨cid, 1, d2, p2⟩]) := by
  have hmem_live : ∀ j : Job, j ∈ (twoSched cid d1 d2 p1 p2).live → j = ⟨cid, 1, d2, p2⟩ := by
    intro j hj
    rw [twoSched_live] at hj
    simpa using hj
  refine ⟨?_, ?_, ?_, ?_⟩
  · intro j hj
    have := fired_src_runFrom (twoSched cid d1 d2 p1 p2) es j hj
    rw [twoSched_fired, twoSched_nextSeq] at this
    rcases this with h1 | h1 | h1
    · simp at h1
    · rw [hmem_live j h1]
      simp
    · omega
  · intro j hj hc
    have := fired_cid_src (twoSched cid d1 d2 p1 p2) es cid h j hj hc
    rw [twoSched_fired] at this
    rcases this with h1 | h1
    · simp at h1
    · rw [hmem_live j h1]
  · have hnd : (runFrom (twoSched cid d1 d2 p1 p2) es).fired.Nodup :=
      (SchedInv_runFrom _ es (twoSched_inv cid d1 d2 p1 p2)).fired_nodup
    refine nodup_all_eq_length_le _ ⟨cid, 1, d2, p2⟩ (hnd.filter _) ?_
    intro x hx
    rw [firedFor, List.mem_filter] at hx
    have hc : x.cid = cid := by simpa using hx.2
    have := fired_cid_src (twoSched cid d1 d2 p1 p2) es cid h x hx.1 hc
    rw [twoSched_fired] at this
    rcases this with h1 | h1
    · simp at h1
    · exact hmem_live x h1
  · intro T hT
    show (SchedState.advance (twoSched cid d1 d2 p1 p2) T).fired = _
    simp only [SchedState.advance, twoSched_fired, twoSched_live, twoSched_now]
    simp [dueB, hT]

theorem claim_C2_witness :
    (⟨0, 0, 5, pA⟩ : Job) ∉ (runFrom (twoSched 0 5 5 pA pB) [Event.advance 10]).fired ∧
    (firedFor (runFrom (twoSched 0 5 5 pA pB) [Event.advance 10]) 0).length ≤ 1 ∧
    (runFrom (twoSched 0 5 5 pA pB) [Event.advance 7]).fired = [⟨0, 1, 5, pB⟩] := by
  have h := claim_C2 0 5 5 pA pB [Event.advance 10] (fun d p => by simp)
  exact ⟨fun hmem => h.1 _ hmem rfl, h.2.2.1, h.2.2.2 7 (by decide)⟩

/-- C5: cancel on a conversation with no live job — including one whose job
already completed — returns false and leaves the scheduler state unchanged;
the returned flag is true exactly when a live job existed; and cancel on a
live job returns true and that job is never delivered to the extraction
trigger afterwards. -/
theorem claim_C5 (es : List Event) (cid : Cid) :
    (liveFor (runSched es) cid = [] →
      (runSched es).cancel cid = (false, runSched es)) ∧
    ((runSched es).cancel cid).1 = ! (liveFor (runSched es) cid).isEmpty ∧
    (∀ j ∈ liveFor (runSched es) cid,
      ((runSched es).cancel cid).1 = true ∧
      ∀ es2 : List Event, j ∉ (runFrom ((runSched es).cancel cid).2 es2).fired) := by
  refine ⟨?_, ?_, ?_⟩
  · intro hE
    have hE2 : ((runSched es).live.filter (fun j => j.cid == cid)).isEmpty = true := by
      rw [show (runSched es).live.filter (fun j => j.cid == cid)
            = liveFor (runSched es) cid from rfl, hE]
      rfl
    simp [SchedState.cancel, hE2]
  · unfold SchedState.cancel
    split
    next hE =>
      have h2 : (liveFor (runSched es) cid).isEmpty = true := hE
      rw [h2]
      rfl
    next hE =>
      have h2 : (liveFor (runSched es) cid).isEmpty = false := by
        cases hc : (liveFor (runSched es) cid).isEmpty with
        | true => exact absurd hc hE
        | false => rfl
      rw [h2]
      rfl
  · intro j hj
    have hne : liveFor (runSched es) cid ≠ [] := by
      intro hnil
      rw [hnil] at hj
      simp at hj
    have hE : ((runSched es).live.filter (fun j => j.cid == cid)).isEmpty = false := by
      rw [show (runSched es).live.filter (fun j => j.cid == cid)
            = liveFor (runSched es) cid from rfl]
      cases hcase : (liveFor (runSched es) cid).isEmpty with
      | true => exact absurd (List.isEmpty_iff.mp hcase) hne
      | false => rfl
    constructor
    · simp [SchedState.cancel, hE]
    · intro es2
      have hC : j ∈ ((runSched es).cancel cid).2.cancelled := by
        have hred : ((runSched es).cancel cid).2.cancelled
            = (runSched es).live.filter (fun j => j.cid == cid) ++ (runSched es).cancelled := by
          simp [SchedState.cancel, hE]
        rw [hred, List.mem_append]
        exact Or.inl hj
      exact cancelled_never_fires _ es2 j
        (SchedInv_cancel (runSched es) cid (SchedInv_runSched es)) hC

theorem claim_C5_witness :
    (runSched []).cancel 0 = (false, runSched []) ∧
    ((runSched [Event.schedule 0 5 pA]).cancel 0).1 = true ∧
    (⟨0, 0, 5, pA⟩ : Job)
      ∉ (runFrom ((runSched [Event.schedule 0 5 pA]).cancel 0).2 [Event.advance 10]).fired := by
  refine ⟨(claim_C5 [] 0).1 (by decide), ?_, ?_⟩
  · exact ((claim_C5 [Event.schedule 0 5 pA] 0).2.2 ⟨0, 0, 5, pA⟩ (by decide)).1
  · exact ((claim_C5 [Event.schedule 0 5 pA] 0).2.2 ⟨0, 0, 5, pA⟩ (by decide)).2 [Event.advance 10]

/-- C6: every schedule call installs a job whose fire time is the call time
plus the requested delay; the run request built by schedule_memories
carries exactly the configuration's user id and memory-type set as
extraction parameters and the configured delay and thread id; and in the
two-calls-delay-5 scenario (second call one time unit after the first) no
job fires strictly before second-call-time + 5, while exactly one job — the
second call's, with its parameters — fires at that time. -/
theorem claim_C6 (es : List Event) (cid : Cid) (d : Nat) (p p1 p2 : Params)
    (cfg : ChatConfigurable) (tid : String) (T : Nat) :
    liveFor ((runSched es).schedule cid d p) cid
      = [⟨cid, (runSched es).nextSeq, (runSched es).now + d, p⟩] ∧
    (mkRunRequest cfg tid).after_seconds = cfg.delay_seconds ∧
    (mkRunRequest cfg tid).user_id = cfg.user_id ∧
    (mkRunRequest cfg tid).memory_types = cfg.memory_types ∧
    (mkRunRequest cfg tid).thread_id = tid ∧
    (T < 5 →
      (runSched [Event.schedule 0 5 p1, Event.advance 1, Event.schedule 0 5 p2,
        Event.advance T]).fired = []) ∧
    (runSched [Event.schedule 0 5 p1, Event.advance 1, Event.schedule 0 5 p2,
        Event.advance 5]).fired = [⟨0, 1, 6, p2⟩] := by
  refine ⟨liveFor_schedule_self (runSched es) cid d p, rfl, rfl, rfl, rfl, ?_, rfl⟩
  intro hT
  show (SchedState.advance ⟨2, 1, [⟨0, 1, 6, p2⟩], [⟨0, 0, 5, p1⟩], []⟩ T).fired = []
  have hlt : ¬ ((6 : Nat) ≤ 1 + T) := by omega
  simp [SchedState.advance, dueB, hlt]

theorem claim_C6_witness :
    (runSched [Event.schedule 0 5 pA, Event.advance 1, Event.schedule 0 5 pB,
      Event.advance 4]).fired = [] :=
  (claim_C6 [] 0 0 pA pA pB ⟨"u", "m", 5, ["a"], "s"⟩ "t" 4).2.2.2.2.2.1 (by decide)

theorem should_continue_concat (l : List Message) (m : Message) :
    should_continue (l ++ [m])
      = some (if ! m.hasToolCallsAttr || m.tool_calls.isEmpty then "schedule_memories"
              else "continue") := by
  unfold should_continue
  rw [List.getLast?_concat]
  rw [apply_ite some]

theorem should_continue_schedule (l : List Message) (m : Message) (h : m.tool_calls = []) :
    should_continue (l ++ [m]) = some ("schedule_memories") := by
  rw [should_continue_concat]
  cases m with
  | assistant c tcs =>
    simp only [Message.tool_calls] at h
    subst h
    rfl
  | user c => rfl
  | tool c i => rfl
  | system c => rfl

theorem should_continue_tools (l : List Message) (c : String) (tc : ToolCall)
    (tcs : List ToolCall) :
    should_continue (l ++ [Message.assistant c (tc :: tcs)]) = some ("continue") := by
  rw [should_continue_concat]
  rfl

theorem runGraph_stop (env : Env) (fuel : Nat) (s : GraphState) :
    runGraph env fuel .stop s = some s := by
  cases fuel <;> rfl

theorem runGraph_zero (env : Env) (n : Node) (s : GraphState) (hn : n ≠ Node.stop) :
    runGraph env 0 n s = none := by
  cases n
  · rfl
  · rfl
  · rfl
  · rfl
  · exact absurd rfl hn

theorem runGraph_succ (env : Env) (fuel : Nat) (n : Node) (s : GraphState)
    (hn : n ≠ Node.stop) :
    runGraph env (fuel + 1) n s
      = match stepNode env n s with
        | some (n2, s2) => runGraph env fuel n2 s2
        | none => none := by
  cases n
  · rfl
  · rfl
  · rfl
  · rfl
  · exact absurd rfl hn

/-- Every completed run that starts anywhere before the end node issues
exactly one scheduling request on top of those already recorded. -/
theorem runGraph_scheduled (env : Env) (fuel : Nat) (n : Node) (s : GraphState)
    (out : GraphState) (hn : n ≠ Node.stop) (h : runGraph env fuel n s = some out) :
    out.scheduled = s.scheduled ++ [mkRunRequest env.cfg env.thread_id] := by
  induction fuel generalizing n s with
  | zero =>
    rw [runGraph_zero env n s hn] at h
    exact absurd h (by simp)
  | succ fuel ih =>
    rw [runGraph_succ env fuel n s hn] at h
    cases n with
    | start =>
      simp only [stepNode] at h
      exact ih .bot s (by simp) h
    | bot =>
      simp only [stepNode] at h
      cases hsc : should_continue
          (s.messages ++ bot s.messages env.cfg env.search env.now env.gen) with
      | none =>
        rw [hsc] at h
        exact absurd h (by simp)
      | some r =>
        rw [hsc] at h
        dsimp only at h
        by_cases hr : r = "continue"
        · rw [if_pos hr] at h
          dsimp only at h
          exact ih .tools
            ⟨s.messages ++ bot s.messages env.cfg env.search env.now env.gen, s.scheduled⟩
            (by simp) h
        · rw [if_neg hr] at h
          dsimp only at h
          exact ih .schedule_memories
            ⟨s.messages ++ bot s.messages env.cfg env.search env.now env.gen, s.scheduled⟩
            (by simp) h
    | tools =>
      simp only [stepNode] at h
      cases hlast : s.messages.getLast? with
      | none =>
        rw [hlast] at h
        exact absurd h (by simp)
      | some last =>
        rw [hlast] at h
        dsimp only at h
        cases htn : toolNode last.tool_calls with
        | none =>
          rw [htn] at h
          exact absurd h (by simp)
        | some results =>
          rw [htn] at h
          dsimp only at h
          exact ih .bot ⟨s.messages ++ results, s.scheduled⟩ (by simp) h
    | schedule_memories =>
      simp only [stepNode, schedule_memories] at h
      rw [runGraph_stop] at h
      have hout : out
          = ⟨s.messages ++ [], s.scheduled ++ [(mkRunRequest env.cfg env.thread_id)]⟩ := by
        exact (Option.some.injEq _ _).mp h.symm
      rw [hout]
    | stop => exact absurd rfl hn

theorem stepNode_start (env : Env) (s : GraphState) :
    stepNode env .start s = some (.bot, s) := rfl

theorem stepNode_schedule (env : Env) (s : GraphState) :
    stepNode env .schedule_memories s
      = some (.stop, ⟨s.messages, s.scheduled ++ [mkRunRequest env.cfg env.thread_id]⟩) := by
  simp [stepNode, schedule_memories]

theorem stepNode_bot_schedule (env : Env) (s : GraphState)
    (h : (env.gen (Message.system (systemPromptFor env.cfg env.search env.now)
        :: s.messages)).tool_calls = []) :
    stepNode env .bot s = some (.schedule_memories,
      ⟨s.messages ++ [env.gen (Message.system (systemPromptFor env.cfg env.search env.now)
          :: s.messages)], s.scheduled⟩) := by
  have hm := should_continue_schedule s.messages
    (env.gen (Message.system (systemPromptFor env.cfg env.search env.now) :: s.messages)) h
  simp only [stepNode, bot]
  rw [hm]
  dsimp only
  rw [if_neg (by decide)]

theorem stepNode_bot_tools (env : Env) (s : GraphState) (c : String) (tc : ToolCall)
    (tcs : List ToolCall)
    (hgen : env.gen (Message.system (systemPromptFor env.cfg env.search env.now)
        :: s.messages) = Message.assistant c (tc :: tcs)) :
    stepNode env .bot s = some (.tools,
      ⟨s.messages ++ [Message.assistant c (tc :: tcs)], s.scheduled⟩) := by
  have hm := should_continue_tools s.messages c tc tcs
  simp only [stepNode, bot, hgen]
  rw [hm]
  dsimp only
  rw [if_pos rfl]

theorem runGraph_step (env : Env) (fuel : Nat) (n : Node) (s : GraphState)
    (hn : n ≠ Node.stop) (n2 : Node) (s2 : GraphState)
    (hstep : stepNode env n s = some (n2, s2)) :
    runGraph env (fuel + 1) n s = runGraph env fuel n2 s2 := by
  rw [runGraph_succ env fuel n s hn, hstep]

/-- C3: a turn whose generated reply carries no tool calls appends exactly
that one reply and issues exactly one scheduling request; a reply with tool
calls routes to the tools node and back; and every completed turn — however
many tool rounds it loops through — ends with exactly one scheduling
request for the whole turn. -/
theorem claim_C3 (env : Env) (msgs : List Message) (fuel : Nat) (out : GraphState) :
    ((env.gen (Message.system (systemPromptFor env.cfg env.search env.now)
        :: msgs)).tool_calls = [] →
      runTurn env 3 msgs
        = some ⟨msgs ++ [env.gen (Message.system (systemPromptFor env.cfg env.search env.now)
            :: msgs)], [mkRunRequest env.cfg env.thread_id]⟩) ∧
    (∀ c : String, ∀ tc : ToolCall, ∀ tcs : List ToolCall,
      env.gen (Message.system (systemPromptFor env.cfg env.search env.now) :: msgs)
          = Message.assistant c (tc :: tcs) →
      stepNode env .bot ⟨msgs, []⟩
        = some (.tools, ⟨msgs ++ [Message.assistant c (tc :: tcs)], []⟩)) ∧
    (runTurn env fuel msgs = some out →
      out.scheduled = [mkRunRequest env.cfg env.thread_id]) := by
  refine ⟨?_, ?_, ?_⟩
  · intro h
    have e1 : runTurn env 3 msgs = runGraph env 2 .bot ⟨msgs, []⟩ :=
      runGraph_step env 2 .start ⟨msgs, []⟩ (by simp) .bot ⟨msgs, []⟩ rfl
    have e2 : runGraph env 2 .bot ⟨msgs, []⟩
        = runGraph env 1 .schedule_memories
            ⟨msgs ++ [env.gen (Message.system (systemPromptFor env.cfg env.search env.now)
              :: msgs)], []⟩ :=
      runGraph_step env 1 .bot ⟨msgs, []⟩ (by simp) _ _ (stepNode_bot_schedule env ⟨msgs, []⟩ h)
    have e3 : runGraph env 1 .schedule_memories
        ⟨msgs ++ [env.gen (Message.system (systemPromptFor env.cfg env.search env.now)
          :: msgs)], []⟩
        = runGraph env 0 .stop
            ⟨msgs ++ [env.gen (Message.system (systemPromptFor env.cfg env.search env.now)
              :: msgs)], [] ++ [mkRunRequest env.cfg env.thread_id]⟩ :=
      runGraph_step env 0 .schedule_memories _ (by simp) _ _ (stepNode_schedule env _)
    rw [e1, e2, e3, runGraph_stop]
    simp
  · intro c tc tcs hgen
    exact stepNode_bot_tools env ⟨msgs, []⟩ c tc tcs hgen
  · intro h
    have := runGraph_scheduled env fuel .start ⟨msgs, []⟩ out (by simp) h
    simpa using this

/-- C4: the bot node builds its system prompt by formatting the configured
template with the memories recalled from the store under the namespace
(user_id,) — rendered "no memories yet" when the search is empty — and the
clock reading, invokes the generator on the system prompt followed by the
full history, and appends the returned message to the conversation. -/
theorem claim_C4 (msgs : List Message) (cfg : ChatConfigurable)
    (search : List String → List String) (now : String) (gen : List Message → Message)
    (env : Env) (s : GraphState) :
    bot msgs cfg search now gen
      = [gen (Message.system
          (formatPrompt cfg.system_prompt (format_memories (search [cfg.user_id])) now)
          :: msgs)] ∧
    (search [cfg.user_id] = [] →
      systemPromptFor cfg search now
        = formatPrompt cfg.system_prompt "no memories yet" now) ∧
    (∀ n2 : Node, ∀ s2 : GraphState, stepNode env .bot s = some (n2, s2) →
      s2.messages = s.messages
        ++ [env.gen (Message.system (systemPromptFor env.cfg env.search env.now)
             :: s.messages)]) := by
  refine ⟨rfl, ?_, ?_⟩
  · intro h
    simp [systemPromptFor, format_memories, h]
  · intro n2 s2 h
    simp only [stepNode, bot] at h
    cases hsc : should_continue (s.messages
        ++ [env.gen (Message.system (systemPromptFor env.cfg env.search env.now)
             :: s.messages)]) with
    | none =>
      rw [hsc] at h
      exact absurd h (by simp)
    | some r =>
      rw [hsc] at h
      dsimp only at h
      by_cases hr : r = "continue"
      · rw [if_pos hr] at h
        have := (Option.some.injEq _ _).mp h
        rw [(Prod.mk.injEq _ _ _ _).mp this |>.2.symm]
      · rw [if_neg hr] at h
        have := (Option.some.injEq _ _).mp h
        rw [(Prod.mk.injEq _ _ _ _).mp this |>.2.symm]

/-- The configuration used by the concrete scenario runs. -/
def cfgA : ChatConfigurable :=
  ⟨"u1", "mem", 5, ["semantic"], "Sys \x7buser_info\x7d \x7btime\x7d"⟩

/-- The tool call issued in the section 8.5 scenario. -/
def pingToolCall : ToolCall := ⟨"call_1", "example_tool", [("query", "ping")]⟩

/-- The scenario's first generated reply: one tool-call request. -/
def reply1 : Message := .assistant "" [pingToolCall]

/-- The scenario's second generated reply: a tool-free "Done.". -/
def reply2 : Message := .assistant "Done." []

/-- The scenario's deterministic reply generator: the first invocation
(system prompt plus the user message) requests the tool call, every later
one replies "Done.". -/
def scnGen : List Message → Message :=
  fun ms => if ms.length ≤ 2 then reply1 else reply2

/-- The scenario environment: no prior memories in the store. -/
def scnEnv : Env := ⟨cfgA, "t1", fun _ => [], "2024-01-01 00:00:00", scnGen⟩

/-- The scenario's opening user message. -/
def pingUser : Message := .user "Call the tool with query=ping"

/-- The conversation after the tool round of the scenario. -/
def scnMid : List Message := [pingUser, reply1, Message.tool "You asked: ping" "call_1"]

theorem claim_C3_witness :
    runTurn scnEnv 3 scnMid
      = some ⟨scnMid ++ [scnEnv.gen (Message.system
          (systemPromptFor scnEnv.cfg scnEnv.search scnEnv.now) :: scnMid)],
          [mkRunRequest scnEnv.cfg scnEnv.thread_id]⟩ ∧
    stepNode scnEnv .bot ⟨[pingUser], []⟩
      = some (.tools, ⟨[pingUser] ++ [Message.assistant "" [pingToolCall]], []⟩) ∧
    (⟨[pingUser, reply1, Message.tool "You asked: ping" "call_1", reply2],
      [mkRunRequest cfgA "t1"]⟩ : GraphState).scheduled
      = [mkRunRequest scnEnv.cfg scnEnv.thread_id] := by
  refine ⟨(claim_C3 scnEnv scnMid 6 ⟨[], []⟩).1 (by rfl), ?_, ?_⟩
  · exact (claim_C3 scnEnv [pingUser] 6 ⟨[], []⟩).2.1 "" pingToolCall [] (by rfl)
  · exact (claim_C3 scnEnv [pingUser] 6
      ⟨[pingUser, reply1, Message.tool "You asked: ping" "call_1", reply2],
        [mkRunRequest cfgA "t1"]⟩).2.2 (by rfl)

theorem claim_C4_witness :
    systemPromptFor cfgA (fun _ => []) "2024-01-01 00:00:00"
      = formatPrompt cfgA.system_prompt "no memories yet" "2024-01-01 00:00:00" ∧
    (⟨[pingUser] ++ [reply1], []⟩ : GraphState).messages
      = [pingUser] ++ [scnEnv.gen (Message.system
          (systemPromptFor scnEnv.cfg scnEnv.search scnEnv.now) :: [pingUser])] := by
  refine ⟨(claim_C4 [] cfgA (fun _ => []) "2024-01-01 00:00:00" scnGen scnEnv
    ⟨[], []⟩).2.1 rfl, ?_⟩
  exact (claim_C4 [] cfgA (fun _ => []) "2024-01-01 00:00:00" scnGen scnEnv
    ⟨[pingUser], []⟩).2.2 .tools ⟨[pingUser] ++ [reply1], []⟩ (by rfl)

theorem toolNode_eq_map (tcs : List ToolCall) (results : List Message)
    (h : toolNode tcs = some results) :
    results = tcs.map (fun tc => Message.tool ((runTool tc.name tc.args).getD "") tc.id) := by
  induction tcs generalizing results with
  | nil =>
    simp only [toolNode] at h
    have := (Option.some.injEq _ _).mp h
    rw [← this]
    rfl
  | cons tc rest ih =>
    unfold toolNode at h
    cases hr : runTool tc.name tc.args with
    | none =>
      rw [hr] at h
      cases ht : toolNode rest with
      | none =>
        rw [ht] at h
        exact absurd h (by simp)
      | some ms =>
        rw [ht] at h
        exact absurd h (by simp)
    | some r =>
      rw [hr] at h
      cases ht : toolNode rest with
      | none =>
        rw [ht] at h
        exact absurd h (by simp)
      | some ms =>
        rw [ht] at h
        dsimp only at h
        have := (Option.some.injEq _ _).mp h
        rw [← this]
        simp [List.map_cons, ih ms ht, hr]

/-- C7: when the just-appended assistant message carries N tool-call
requests, the tools node appends exactly N tool-result messages, in request
order, each referencing its call id, and control returns to the bot node. -/
theorem claim_C7 (tcs : List ToolCall) (results : List Message) (env : Env)
    (msgs : List Message) (sch : List RunRequest) (c : String)
    (h : toolNode tcs = some results) :
    results.length = tcs.length ∧
    (∀ (i : Nat) (h1 : i < results.length) (h2 : i < tcs.length),
      results.get ⟨i, h1⟩
        = Message.tool ((runTool (tcs.get ⟨i, h2⟩).name (tcs.get ⟨i, h2⟩).args).getD "")
            (tcs.get ⟨i, h2⟩).id) ∧
    stepNode env .tools ⟨msgs ++ [Message.assistant c tcs], sch⟩
      = some (.bot, ⟨(msgs ++ [Message.assistant c tcs]) ++ results, sch⟩) := by
  have hmap := toolNode_eq_map tcs results h
  refine ⟨by rw [hmap]; simp, ?_, ?_⟩
  · intro i h1 h2
    subst hmap
    simp [List.get_map]
  · simp only [stepNode]
    rw [List.getLast?_concat]
    dsimp only [Message.tool_calls]
    rw [h]

theorem claim_C7_witness :
    ([Message.tool "You asked: ping" "call_1"] : List Message).length
      = [pingToolCall].length ∧
    stepNode scnEnv .tools ⟨[pingUser] ++ [Message.assistant "" [pingToolCall]], []⟩
      = some (.bot, ⟨([pingUser] ++ [Message.assistant "" [pingToolCall]])
          ++ [Message.tool "You asked: ping" "call_1"], []⟩) := by
  have h := claim_C7 [pingToolCall] [Message.tool "You asked: ping" "call_1"] scnEnv
    [pingUser] [] "" (by rfl)
  exact ⟨h.1, h.2.2⟩

/-- C8: in the section 8.5 scenario, example_tool on "ping" returns
"You asked: ping"; the turn ends with the message sequence
[user, assistant(tool_call), tool_result("You asked: ping"),
assistant("Done.")] and exactly one scheduling request, issued after the
final assistant message. -/
theorem claim_C8 :
    example_tool "ping" = "You asked: ping" ∧
    runTurn scnEnv 6 [pingUser]
      = some ⟨[pingUser, reply1, Message.tool "You asked: ping" "call_1", reply2],
              [mkRunRequest cfgA "t1"]⟩ :=
  ⟨rfl, rfl⟩

/-- C9: scheduling touches only the scheduler's job state — the
schedule_memories node appends no messages, and any run through it hands
the caller back exactly the messages it entered with. -/
theorem claim_C9 (env : Env) (s : GraphState) (fuel : Nat) (out : GraphState) :
    (schedule_memories env.cfg env.thread_id).2 = [] ∧
    (∀ n2 : Node, ∀ s2 : GraphState,
      stepNode env .schedule_memories s = some (n2, s2) → s2.messages = s.messages) ∧
    (runGraph env fuel .schedule_memories s = some out → out.messages = s.messages) := by
  refine ⟨rfl, ?_, ?_⟩
  · intro n2 s2 h
    rw [stepNode_schedule] at h
    have := (Option.some.injEq _ _).mp h
    rw [(Prod.mk.injEq _ _ _ _).mp this |>.2.symm]
  · intro h
    cases fuel with
    | zero =>
      rw [runGraph_zero env _ s (by simp)] at h
      exact absurd h (by simp)
    | succ fuel =>
      rw [runGraph_step env fuel .schedule_memories s (by simp) .stop
        ⟨s.messages, s.scheduled ++ [mkRunRequest env.cfg env.thread_id]⟩
        (stepNode_schedule env s), runGraph_stop] at h
      have := (Option.some.injEq _ _).mp h
      rw [← this]

theorem claim_C9_witness :
    (⟨[pingUser], [mkRunRequest cfgA "t1"]⟩ : GraphState).messages = [pingUser] ∧
    (⟨[pingUser], [mkRunRequest scnEnv.cfg scnEnv.thread_id]⟩ : GraphState).messages
      = ([pingUser] : List Message) := by
  refine ⟨(claim_C9 scnEnv ⟨[pingUser], []⟩ 1
    ⟨[pingUser], [mkRunRequest cfgA "t1"]⟩).2.2 (by rfl), ?_⟩
  exact (claim_C9 scnEnv ⟨[pingUser], []⟩ 1 ⟨[], []⟩).2.1 .stop
    ⟨[pingUser], [mkRunRequest scnEnv.cfg scnEnv.thread_id]⟩ (by rfl)

/-- C10: should_continue is defined only on states with at least one
message (the empty state yields no route); on a non-empty state it routes
to schedule_memories exactly when the last message has no tool_calls
attribute or an empty tool_calls collection, and to the tool loop
otherwise — in particular an assistant message with an empty tool-call list
ends the turn. -/
theorem claim_C10 (ms : List Message) (m : Message) (c : String) :
    should_continue [] = none ∧
    should_continue (ms ++ [m])
      = some (if ! m.hasToolCallsAttr || m.tool_calls.isEmpty then "schedule_memories"
              else "continue") ∧
    should_continue (ms ++ [Message.assistant c []]) = some ("schedule_memories") := by
  refine ⟨rfl, should_continue_concat ms m, ?_⟩
  exact should_continue_schedule ms (Message.assistant c []) rfl
